import Mathlib

/-!
Verification development for the gemini-sonic voice-augmented search client.

The definitions below are a shallow embedding of the source of the program:

* `src/services/geminiService.ts` — the `searchAndSummarize` response parsing
  (the `QUERY_USED:` marker regexes and the citation-deduplication filter);
* `src/App.tsx` — the orchestrator state (`AppState`), the search flow
  (`performSearchFlow`), the entry-point handlers (`handleSearch`,
  `handleWorkshop`, `handleFindMore`, `handleHistoryClick`), the audio
  stop/completion logic (`stopAudio`, the `onended` handler), and the
  history insertion (`pushHistory`).

JavaScript semantics are embedded faithfully: regexes are unfolded to their
backtracking behaviour on the two concrete patterns the source uses, string
truthiness is emptiness, `Array.prototype.filter` with an index argument is
spelled out, and the Web Audio `ended` event is dispatched whenever a source
node stops playing — whether it reached the end of its buffer or `stop()`
was called (W3C Web Audio API, `AudioScheduledSourceNode`: the `ended`
event fires when the node stops playing for any reason).
-/

namespace GeminiSonic

/-! ## Service layer: `searchAndSummarize` response parsing

Embeds `src/services/geminiService.ts`, lines 39–48 (marker extraction) and
lines 50–63 (citation extraction and deduplication).  Strings are handled as
`List Char`; the two regexes `/QUERY_USED:\s*(.*)/i` and
`/QUERY_USED:\s*.*$/i` (no `m`, no `g` flag) are unfolded to their exact
matching behaviour. -/

/-- JavaScript `\s` character class (WhiteSpace ∪ LineTerminator). -/
def jsWhitespace (c : Char) : Bool :=
  c = ' ' || c = '\t' || c = '\n' || c = '\r' ||
  c.toNat = 11 || c.toNat = 12 || c.toNat = 160 || c.toNat = 0x1680 ||
  (0x2000 ≤ c.toNat && c.toNat ≤ 0x200A) ||
  c.toNat = 0x2028 || c.toNat = 0x2029 ||
  c.toNat = 0x202F || c.toNat = 0x205F || c.toNat = 0x3000 || c.toNat = 0xFEFF

/-- JavaScript LineTerminator class: the characters `.` does not match. -/
def lineTerm (c : Char) : Bool :=
  c = '\n' || c = '\r' || c.toNat = 0x2028 || c.toNat = 0x2029

/-- Embeds `String.prototype.trim` (removes WhiteSpace and LineTerminator at both ends). -/
def jsTrim (l : List Char) : List Char :=
  ((l.dropWhile jsWhitespace).reverse.dropWhile jsWhitespace).reverse

/-- ASCII lowercasing: non-`u` JavaScript regexes canonicalise case-insensitive
matching so that only ASCII letters fold onto ASCII letters. -/
def toLowerAscii (c : Char) : Char :=
  if 'A' ≤ c ∧ c ≤ 'Z' then Char.ofNat (c.toNat + 32) else c

/-- Does `l` start with the pattern `p` (pattern given lowercased),
compared case-insensitively? -/
def matchesCI : List Char → List Char → Bool
  | [], _ => true
  | _ :: _, [] => false
  | p :: ps, c :: cs => (toLowerAscii c = p) && matchesCI ps cs

/-- The literal part of both regexes, lowercased: `QUERY_USED:`. -/
def markerL : List Char := ('q' :: "uery_used:".data)

/-- Leftmost case-insensitive occurrence of the marker:
returns the text before it and the text after it. -/
def findMarker : List Char → Option (List Char × List Char)
  | [] => none
  | c :: cs =>
    if matchesCI markerL (c :: cs) then
      some ([], (c :: cs).drop markerL.length)
    else
      match findMarker cs with
      | some (pre, rest) => some (c :: pre, rest)
      | none => none

/-- Capture group of `/QUERY_USED:\s*(.*)/i` applied after the marker:
greedy `\s*` then `(.*)` up to the next line terminator. -/
def captureRest (rest : List Char) : List Char :=
  (rest.dropWhile jsWhitespace).takeWhile (fun c => !lineTerm c)

/-- Does a suffix match `\s*.*$` (reaching the very end of the string)?
With backtracking this holds iff some whitespace-only prefix can be dropped
so that the remainder contains no line terminator. -/
def wsThenNoLT : List Char → Bool
  | [] => true
  | c :: cs => (jsWhitespace c && wsThenNoLT cs) || (c :: cs).all (fun x => !lineTerm x)

/-- Embeds the replace step (pattern `QUERY_USED:` then `\s*.*$`, flag i,
replacement empty): remove from the leftmost
marker occurrence whose tail matches `\s*.*$` through to the end of the
string; `none` when no such occurrence exists (replace is then a no-op). -/
def stripTrailing : List Char → Option (List Char)
  | [] => none
  | c :: cs =>
    if matchesCI markerL (c :: cs) && wsThenNoLT ((c :: cs).drop markerL.length) then
      some []
    else
      match stripTrailing cs with
      | some pre => some (c :: pre)
      | none => none

/-- The marker-extraction block of `searchAndSummarize`
(`src/services/geminiService.ts`, lines 39–48): returns
`(summary, actualQuery)` for a given input `query` and backend `fullText`. -/
def parseSearch (query fullText : List Char) : List Char × List Char :=
  match findMarker fullText with
  | none => (fullText, query)
  | some (_, rest) =>
    let actualQuery := jsTrim (captureRest rest)
    let summary := jsTrim (match stripTrailing fullText with
                           | some pre => pre
                           | none => fullText)
    (summary, actualQuery)

/-- One citation (`src/types.ts`, `SearchResult`; the optional snippet is
never produced by the service and is omitted). -/
structure SearchResult where
  title : String
  uri : String
deriving DecidableEq, Repr

/-- Embeds `SearchResponse` from `src/types.ts`. -/
structure SearchResponse where
  summary : String
  sources : List SearchResult
  actualQuery : String
deriving DecidableEq, Repr

/-- The `web` field of a grounding chunk as used by the service:
a title and a URI, either of which may be absent (absence and the empty
string are indistinguishable to the truthiness tests the code performs). -/
structure WebInfo where
  title : String
  uri : String
deriving DecidableEq, Repr

/-- One grounding chunk from backend metadata (`chunk.web` may be absent). -/
structure Chunk where
  web : Option WebInfo
deriving DecidableEq, Repr

/-- The body of the `groundingChunks.forEach` push loop for one chunk
(`src/services/geminiService.ts`, lines 53–60): push the entry when
`chunk.web && chunk.web.uri` is truthy, defaulting an empty title to
`"Source"`. -/
def chunkEntry (ch : Chunk) : Option SearchResult :=
  match ch.web with
  | some w =>
    if w.uri = "" then none
    else some ⟨if w.title = "" then "Source" else w.title, w.uri⟩
  | none => none

/-- The `groundingChunks.forEach` push loop
(`src/services/geminiService.ts`, lines 52–61). -/
def chunkToSources (cs : List Chunk) : List SearchResult :=
  cs.filterMap chunkEntry

/-- Embeds `sources.filter((v, i, a) => a.findIndex(t => t.uri === v.uri) === i)`,
unfolded: `a` is the whole array, `i` the running index. -/
def jsUniqueAux (a : List SearchResult) (i : Nat) : List SearchResult → List SearchResult
  | [] => []
  | v :: rest =>
    (if a.findIdx (fun t => t.uri == v.uri) = i then [v] else []) ++
      jsUniqueAux a (i + 1) rest

/-- The `uniqueSources` filter (`src/services/geminiService.ts`, line 63). -/
def uniqueByUri (a : List SearchResult) : List SearchResult :=
  jsUniqueAux a 0 a

/-- Embeds `searchAndSummarize` (`src/services/geminiService.ts`, lines 27–70),
as a function of the text and grounding chunks of the backend response. -/
def searchAndSummarize (query fullText : String) (chunks : List Chunk) : SearchResponse :=
  let p := parseSearch query.data fullText.data
  { summary := String.mk p.1
    sources := uniqueByUri (chunkToSources chunks)
    actualQuery := String.mk p.2 }

/-! Specification-side deduplication, written from the words of the spec:
"deduplicated by URI (first occurrence wins), original relative order
preserved". -/

/-- Keep each element whose URI has not been seen before, in order. -/
def dedupSeen (seen : List String) : List SearchResult → List SearchResult
  | [] => []
  | v :: rest =>
    if v.uri ∈ seen then dedupSeen seen rest
    else v :: dedupSeen (v.uri :: seen) rest

/-- Deduplication by URI, first occurrence kept, order preserved
(the description the spec gives of the citation list). -/
def dedupByUriFirst (l : List SearchResult) : List SearchResult :=
  dedupSeen [] l

/-! ## Orchestrator: state, flow and handlers (`src/App.tsx`) -/

/-- Embeds `AppStatus` from `src/types.ts`. -/
inductive AppStatus where
  | IDLE
  | TWEAKING
  | ANALYZING
  | SEARCHING
  | SYNTHESIZING
  | GENERATING_AUDIO
  | PLAYING
  | ERROR
deriving DecidableEq, Repr

/-- Embeds `HistoryItem` from `src/App.tsx`. -/
structure HistoryItem where
  id : String
  query : String
  results : SearchResponse
deriving DecidableEq, Repr

/-- The reactive state of the component (`src/App.tsx`, lines 365–377), plus the
playback-side state: `currentSource` is whether `currentSourceRef.current`
is non-null, `playingSource` is whether a Web Audio source node is currently
playing, and `endedQueued` is whether an `ended` event for the registered
`onended` handler is pending delivery.  (W3C Web Audio: the `ended` event is
dispatched when a source node stops playing, whether the buffer ran out or
`stop()` was called.) -/
structure AppState where
  query : String
  status : AppStatus
  results : Option SearchResponse
  error : Option String
  logs : List String
  playbackFinished : Bool
  isLuckyLoading : Bool
  history : List HistoryItem
  currentSource : Bool
  playingSource : Bool
  endedQueued : Bool
deriving DecidableEq, Repr

/-- Remote calls made through `GeminiService` (network traffic). -/
inductive RemoteCall where
  | search (q : String)
  | speech (text : String)
  | tweak (q : String)
  | refine (q : String) (summary : String)
deriving DecidableEq, Repr

/-- Outcomes of the awaited operations during one user action: what each
remote call (and the local audio decode) would return if reached. -/
structure Env where
  searchRes : Except String SearchResponse
  speechRes : Except String String
  decodeRes : Except String Unit
  tweakRes : Except String String
  refineRes : Except String String
  newId : String

/-- Result of running a handler: final state, the intermediate observable
states in order, and the remote calls made. -/
structure FlowOut where
  final : AppState
  trace : List AppState
  calls : List RemoteCall
deriving Repr

/-- Log messages, verbatim from `src/App.tsx`. -/
def analyzeMsg (q : String) : String := "Analyzing request: \"" ++ q ++ "\""

def consultMsg : String := "Consulting Google Search for real-time information..."

def foundMsg (n : Nat) : String := "Found " ++ toString n ++ " relevant sources."

def usedMsg (aq : String) : String := "Model used search term: \"" ++ aq ++ "\""

def synthMsg : String := "Synthesizing search results into concise summary..."

def convertMsg : String := "Converting summary to speech using Gemini TTS..."

def playMsg : String := "Playing audio summary."

def finishMsg : String := "Playback finished."

def errorLogMsg (m : String) : String := "Error: " ++ m

/-- Embeds the error-field fallback (message, or the default "Search failed.
Please try again." when falsy) — the falsy case of a message is the empty
string. -/
def errorField (m : String) : String :=
  if m = "" then "Search failed. Please try again." else m

def restoreMsg (q : String) : String := "Restored search results for: \"" ++ q ++ "\""

def workshopMsg (q : String) : String :=
  "Gemini Workshop is optimizing your prompt: \"" ++ q ++ "\"..."

def workshopOutMsg (t : String) : String := "Workshop output: \"" ++ t ++ "\""

def deeperMsg : String := "Generating a deeper research query..."

def deeperPathMsg (d : String) : String := "New exploration path: \"" ++ d ++ "\""

/-- Embeds `query.trim()` on a `String`. -/
def strTrim (s : String) : String := String.mk (jsTrim s.data)

/-- Embeds `isSearching` (`src/App.tsx`, line 551). -/
def isSearching (s : AppState) : Bool :=
  s.status ≠ AppStatus.IDLE && s.status ≠ AppStatus.PLAYING && s.status ≠ AppStatus.ERROR

/-- Embeds `stopAudio` (`src/App.tsx`, lines 385–391): if a source is held, call
`stop()` on it (output halts at once; if it was playing, the platform queues
its `ended` event) and null the ref; then, if the status is `PLAYING`, set it
to `IDLE`. -/
def stopAudio (s : AppState) : AppState :=
  let s1 := if s.currentSource then
      { s with currentSource := false
               playingSource := false
               endedQueued := s.endedQueued || s.playingSource }
    else s
  if s1.status = AppStatus.PLAYING then { s1 with status := AppStatus.IDLE } else s1

/-- The `source.onended` handler body (`src/App.tsx`, lines 442–447). -/
def onendedHandler (s : AppState) : AppState :=
  { s with status := AppStatus.IDLE
           currentSource := false
           playbackFinished := true
           logs := s.logs ++ [finishMsg] }

/-- Delivery of a queued `ended` event: runs the registered handler. -/
def deliverEnded (s : AppState) : AppState :=
  if s.endedQueued then onendedHandler { s with endedQueued := false } else s

/-- Embeds the history insert `setHistory(prev => [newItem, ...prev.slice(0, 19)])`
(`src/App.tsx`, line 419). -/
def pushHistory (e : HistoryItem) (h : List HistoryItem) : List HistoryItem :=
  e :: h.take 19

/-- The statements before the `try` of `performSearchFlow`
(`src/App.tsx`, lines 394–395). -/
def flowStart (s : AppState) : AppState :=
  { s with error := none, playbackFinished := false }

/-- The `catch` block of `performSearchFlow` (`src/App.tsx`, lines 452–457). -/
def flowCatch (s : AppState) (m : String) : AppState :=
  { s with error := some (errorField m)
           status := AppStatus.ERROR
           logs := s.logs ++ [errorLogMsg m] }

/-- Embeds `performSearchFlow` (`src/App.tsx`, lines 393–458), as a function of the
initial state, the query argument and the awaited outcomes.  The trace lists
the observable states after each state-mutation group, in source order. -/
def performSearchFlow (s : AppState) (q : String) (env : Env) : FlowOut :=
  let s1 := flowStart s
  let s2 := { s1 with status := AppStatus.ANALYZING, logs := s1.logs ++ [analyzeMsg q] }
  let s3 := { s2 with status := AppStatus.SEARCHING, logs := s2.logs ++ [consultMsg] }
  match env.searchRes with
  | Except.error m => ⟨flowCatch s3 m, [s1, s2, s3, flowCatch s3 m], [RemoteCall.search q]⟩
  | Except.ok r =>
    let s4 := { s3 with logs := s3.logs ++ [foundMsg r.sources.length, usedMsg r.actualQuery] }
    let s5 := { s4 with status := AppStatus.SYNTHESIZING
                        logs := s4.logs ++ [synthMsg]
                        results := some r
                        history := pushHistory ⟨env.newId, q, r⟩ s4.history }
    let s6 := { s5 with status := AppStatus.GENERATING_AUDIO, logs := s5.logs ++ [convertMsg] }
    match env.speechRes with
    | Except.error m =>
      ⟨flowCatch s6 m, [s1, s2, s3, s4, s5, s6, flowCatch s6 m],
       [RemoteCall.search q, RemoteCall.speech r.summary]⟩
    | Except.ok _audio =>
      let s7 := { s6 with status := AppStatus.PLAYING, logs := s6.logs ++ [playMsg] }
      match env.decodeRes with
      | Except.error m =>
        ⟨flowCatch s7 m, [s1, s2, s3, s4, s5, s6, s7, flowCatch s7 m],
         [RemoteCall.search q, RemoteCall.speech r.summary]⟩
      | Except.ok _ =>
        let s8 := { s7 with currentSource := true, playingSource := true }
        ⟨s8, [s1, s2, s3, s4, s5, s6, s7, s8],
         [RemoteCall.search q, RemoteCall.speech r.summary]⟩

/-- The click handler of the Replay button (`src/App.tsx`, line 757):
`onClick={() => performSearchFlow(query)}`. -/
def replayClick (s : AppState) (env : Env) : FlowOut :=
  performSearchFlow s s.query env

/-- Embeds `handleSearch` (`src/App.tsx`, lines 460–468). -/
def handleSearch (s : AppState) (env : Env) : FlowOut :=
  if strTrim s.query = "" ∨ (s.status ≠ AppStatus.IDLE ∧ s.status ≠ AppStatus.ERROR) then
    ⟨s, [], []⟩
  else
    let s1 := stopAudio { s with results := none, logs := [] }
    performSearchFlow s1 s.query env

/-- Embeds `handleWorkshop` (`src/App.tsx`, lines 470–489). -/
def handleWorkshop (s : AppState) (env : Env) : FlowOut :=
  if strTrim s.query = "" ∨ isSearching s = true ∨ s.isLuckyLoading = true then
    ⟨s, [], []⟩
  else
    let s1 := stopAudio { s with results := none, logs := [] }
    let s2 := { s1 with status := AppStatus.TWEAKING, logs := s1.logs ++ [workshopMsg s.query] }
    match env.tweakRes with
    | Except.error _ =>
      let sE := { s2 with logs := s2.logs ++ ["Workshop failed to optimize the prompt."]
                          error := some "Workshop optimization failed."
                          status := AppStatus.ERROR }
      ⟨sE, [s2, sE], [RemoteCall.tweak s.query]⟩
    | Except.ok t =>
      let s3 := { s2 with query := t, logs := s2.logs ++ [workshopOutMsg t] }
      let f := performSearchFlow s3 t env
      ⟨f.final, s2 :: s3 :: f.trace, RemoteCall.tweak s.query :: f.calls⟩

/-- Embeds `handleFindMore` (`src/App.tsx`, lines 514–532).  Its only guard is
`if (!results) return;` — there is no status check.  The `catch` sets the
error and the status but does not log. -/
def handleFindMore (s : AppState) (env : Env) : FlowOut :=
  match s.results with
  | none => ⟨s, [], []⟩
  | some r =>
    let s1 := { s with status := AppStatus.ANALYZING, logs := s.logs ++ [deeperMsg] }
    match env.refineRes with
    | Except.error _ =>
      let sE := { s1 with error := some "Failed to generate a deeper query."
                          status := AppStatus.ERROR }
      ⟨sE, [s1, sE], [RemoteCall.refine s.query r.summary]⟩
    | Except.ok d =>
      let s2 := { s1 with query := d, logs := s1.logs ++ [deeperPathMsg d] }
      let f := performSearchFlow s2 d env
      ⟨f.final, s1 :: s2 :: f.trace, RemoteCall.refine s.query r.summary :: f.calls⟩

/-- Embeds `handleHistoryClick` (`src/App.tsx`, lines 542–549): stop audio, restore
the stored snapshot, replace the log with one restore line, force `IDLE`,
set the playback-finished flag.  No remote call is made. -/
def handleHistoryClick (s : AppState) (item : HistoryItem) : FlowOut :=
  let s1 := stopAudio s
  let s2 := { s1 with results := some item.results
                      query := item.query
                      logs := [restoreMsg item.query]
                      status := AppStatus.IDLE
                      playbackFinished := true }
  ⟨s2, [s2], []⟩

/-- Log monotonicity between two states: the later log extends the earlier
one (nothing removed or rewritten). -/
def LogExtends (a b : AppState) : Prop :=
  ∃ t, b.logs = a.logs ++ t

/-! ## Concrete fixtures used by counterexamples and witnesses -/

def rOld : SearchResponse := ⟨"old summary", [], "old query"⟩

def rNew : SearchResponse := ⟨"new summary", [⟨"T", "u"⟩], "new query"⟩

/-- An idle state holding an active result (e.g. after a finished flow). -/
def sIdle : AppState :=
  { query := "q", status := AppStatus.IDLE, results := some rOld, error := none,
    logs := [], playbackFinished := true, isLuckyLoading := false, history := [],
    currentSource := false, playingSource := false, endedQueued := false }

/-- A playing state (mid-playback). -/
def sPlaying : AppState :=
  { sIdle with status := AppStatus.PLAYING, currentSource := true,
               playingSource := true, playbackFinished := false, logs := ["x"] }

/-- All awaited operations succeed. -/
def envOk : Env :=
  { searchRes := Except.ok rNew, speechRes := Except.ok "b64",
    decodeRes := Except.ok (), tweakRes := Except.ok "tweaked",
    refineRes := Except.ok "deeper", newId := "1" }

/-- Speech generation fails after a successful search. -/
def envSpeechFail : Env := { envOk with speechRes := Except.error "boom" }

/-- The query-tweak call fails. -/
def envTweakFail : Env := { envOk with tweakRes := Except.error "tfail" }

/-- The query-refinement call fails. -/
def envRefineFail : Env := { envOk with refineRes := Except.error "rfail" }

/-- A busy state (mid-search), still holding the previous result. -/
def sSearching : AppState := { sIdle with status := AppStatus.SEARCHING }

/-- An idle state with no active result. -/
def sNoResults : AppState := { sIdle with results := none }

/-- The history entry created by the i-th successful flow. -/
def histItem (i : Nat) : HistoryItem := ⟨toString i, "q", rNew⟩

/-! ## Helper lemmas -/

theorem findIdx_append_cons (p : SearchResult → Bool) (v : SearchResult) (hv : p v = true)
    (pre rest : List SearchResult) :
    List.findIdx p (pre ++ v :: rest) = pre.length ↔ ∀ t ∈ pre, p t = false := by
  induction pre with
  | nil => simp [List.findIdx_cons, hv]
  | cons a pre ih =>
    cases h : p a with
    | true => simp [List.findIdx_cons, h]
    | false => simp [List.findIdx_cons, h, ih]

theorem dedupSeen_congr (l : List SearchResult) :
    ∀ (s1 s2 : List String), (∀ u, u ∈ s1 ↔ u ∈ s2) → dedupSeen s1 l = dedupSeen s2 l := by
  induction l with
  | nil => intro s1 s2 _; rfl
  | cons v rest ih =>
    intro s1 s2 h
    rw [dedupSeen, dedupSeen]
    by_cases hv : v.uri ∈ s1
    · rw [if_pos hv, if_pos ((h v.uri).mp hv)]
      exact ih s1 s2 h
    · rw [if_neg hv, if_neg (fun hc => hv ((h v.uri).mpr hc))]
      have h2 : ∀ u, u ∈ v.uri :: s1 ↔ u ∈ v.uri :: s2 := by
        intro u
        simp only [List.mem_cons]
        exact or_congr Iff.rfl (h u)
      rw [ih (v.uri :: s1) (v.uri :: s2) h2]

theorem jsUniqueAux_eq_dedupSeen :
    ∀ (suf pre : List SearchResult),
      jsUniqueAux (pre ++ suf) pre.length suf = dedupSeen (pre.map fun t => t.uri) suf := by
  intro suf
  induction suf with
  | nil => intro pre; rfl
  | cons v rest ih =>
    intro pre
    have hiff : (List.findIdx (fun t => t.uri == v.uri) (pre ++ v :: rest) = pre.length)
        ↔ v.uri ∉ pre.map (fun t => t.uri) := by
      rw [findIdx_append_cons _ v (by simp) pre rest]
      constructor
      · intro h hmem
        obtain ⟨t, ht, htu⟩ := List.mem_map.mp hmem
        have := h t ht
        simp only [beq_eq_false_iff_ne] at this
        exact this htu
      · intro h t ht
        simp only [beq_eq_false_iff_ne]
        exact fun he => h (List.mem_map.mpr ⟨t, ht, he⟩)
    have hstep : jsUniqueAux (pre ++ v :: rest) (pre.length + 1) rest
        = dedupSeen ((pre ++ [v]).map fun t => t.uri) rest := by
      have h1 : pre ++ v :: rest = (pre ++ [v]) ++ rest := by simp
      have h2 : pre.length + 1 = (pre ++ [v]).length := by simp
      rw [h1, h2, ih]
    by_cases hmem : v.uri ∈ pre.map (fun t => t.uri)
    · rw [jsUniqueAux, if_neg (fun hc => (hiff.mp hc) hmem), hstep,
          dedupSeen_congr rest _ (pre.map fun t => t.uri)
            (by
              intro u
              simp only [List.map_append, List.map_cons, List.map_nil, List.mem_append,
                List.mem_cons, List.not_mem_nil, or_false]
              exact ⟨fun h => h.elim id (fun he => he ▸ hmem), Or.inl⟩)]
      simp [dedupSeen, hmem]
    · rw [jsUniqueAux, if_pos (hiff.mpr hmem), hstep,
          dedupSeen_congr rest _ (v.uri :: pre.map fun t => t.uri)
            (by
              intro u
              simp only [List.map_append, List.map_cons, List.map_nil, List.mem_append,
                List.mem_cons, List.not_mem_nil, or_false]
              exact or_comm)]
      simp [dedupSeen, hmem]

theorem uniqueByUri_eq_dedup (l : List SearchResult) : uniqueByUri l = dedupByUriFirst l := by
  have h := jsUniqueAux_eq_dedupSeen l []
  simpa [uniqueByUri, dedupByUriFirst] using h

theorem dedupSeen_all (p : SearchResult → Bool) :
    ∀ (l : List SearchResult) (seen : List String),
      l.all p = true → (dedupSeen seen l).all p = true := by
  intro l
  induction l with
  | nil => intro seen _; rfl
  | cons v rest ih =>
    intro seen h
    simp only [List.all_cons, Bool.and_eq_true] at h
    by_cases hm : v.uri ∈ seen
    · rw [dedupSeen, if_pos hm]
      exact ih _ h.2
    · rw [dedupSeen, if_neg hm]
      simp only [List.all_cons, Bool.and_eq_true]
      exact ⟨h.1, ih _ h.2⟩

theorem chunkToSources_uri_ne (cs : List Chunk) :
    (chunkToSources cs).all (fun r => !(r.uri == "")) = true := by
  induction cs with
  | nil => rfl
  | cons c cs ih =>
    cases hw : c.web with
    | none =>
      rw [chunkToSources, List.filterMap_cons]
      simp only [chunkEntry, hw]
      exact ih
    | some w =>
      rw [chunkToSources, List.filterMap_cons]
      simp only [chunkEntry, hw]
      by_cases hu : w.uri = ""
      · rw [if_pos hu]
        exact ih
      · rw [if_neg hu]
        simp only [List.all_cons, Bool.and_eq_true]
        exact ⟨by simpa using hu, ih⟩

theorem matchesCI_append (p : List Char) :
    ∀ (l r : List Char), matchesCI p l = true → matchesCI p (l ++ r) = true := by
  induction p with
  | nil => intro l r _; rfl
  | cons a ps ih =>
    intro l r h
    cases l with
    | nil => cases h
    | cons c cs =>
      rw [List.cons_append, matchesCI]
      rw [matchesCI] at h
      simp only [Bool.and_eq_true] at h ⊢
      exact ⟨h.1, ih cs r h.2⟩

theorem findMarker_eq_some :
    ∀ (pre m t : List Char), matchesCI markerL m = true → m.length = markerL.length →
      (∀ i, i < pre.length → matchesCI markerL ((pre ++ m ++ t).drop i) = false) →
      findMarker (pre ++ m ++ t) = some (pre, t) := by
  intro pre
  induction pre with
  | nil =>
    intro m t hm hlen _
    cases m with
    | nil => simp [markerL] at hlen
    | cons a as =>
      have h1 : matchesCI markerL ((a :: as) ++ t) = true := matchesCI_append _ _ _ hm
      rw [List.nil_append, List.cons_append, findMarker, if_pos (by exact h1)]
      rw [← List.cons_append, ← hlen, List.drop_left]
  | cons a pre ih =>
    intro m t hm hlen hno
    have hcons : (a :: pre) ++ m ++ t = a :: (pre ++ m ++ t) := by
      rw [List.cons_append, List.cons_append]
    have h0 : matchesCI markerL (a :: (pre ++ m ++ t)) = false := by
      have h := hno 0 (by simp)
      rwa [List.drop_zero, hcons] at h
    have hrec := ih m t hm hlen (fun i hi => by
      have h := hno (i + 1) (by simpa using Nat.succ_lt_succ hi)
      rwa [hcons, List.drop_succ_cons] at h)
    rw [hcons, findMarker, if_neg (by rw [h0]; exact Bool.false_ne_true), hrec]

theorem findMarker_eq_none :
    ∀ (txt : List Char), (∀ i, i < txt.length → matchesCI markerL (txt.drop i) = false) →
      findMarker txt = none := by
  intro txt
  induction txt with
  | nil => intro _; rfl
  | cons c cs ih =>
    intro h
    have h0 : matchesCI markerL (c :: cs) = false := by
      have := h 0 (by simp)
      rwa [List.drop_zero] at this
    have hrec := ih (fun i hi => by
      have hd := h (i + 1) (by simpa using Nat.succ_lt_succ hi)
      rwa [List.drop_succ_cons] at hd)
    rw [findMarker, if_neg (by simp [h0]), hrec]

theorem wsThenNoLT_of_all (l : List Char) (h : (l.all fun c => !lineTerm c) = true) :
    wsThenNoLT l = true := by
  cases l with
  | nil => rfl
  | cons c cs =>
    rw [wsThenNoLT, h]
    simp

theorem stripTrailing_eq_some :
    ∀ (pre m t : List Char), matchesCI markerL m = true → m.length = markerL.length →
      wsThenNoLT t = true →
      (∀ i, i < pre.length → matchesCI markerL ((pre ++ m ++ t).drop i) = false) →
      stripTrailing (pre ++ m ++ t) = some pre := by
  intro pre
  induction pre with
  | nil =>
    intro m t hm hlen hws _
    cases m with
    | nil => simp [markerL] at hlen
    | cons a as =>
      have h1 : matchesCI markerL ((a :: as) ++ t) = true := matchesCI_append _ _ _ hm
      have h2 : ((a :: as) ++ t).drop markerL.length = t := by
        rw [← hlen, List.drop_left]
      rw [List.nil_append, List.cons_append, stripTrailing]
      rw [List.cons_append] at h1 h2
      rw [if_pos (by rw [h1, h2, hws]; rfl)]

  | cons a pre ih =>
    intro m t hm hlen hws hno
    have hcons : (a :: pre) ++ m ++ t = a :: (pre ++ m ++ t) := by
      rw [List.cons_append, List.cons_append]
    have h0 : matchesCI markerL (a :: (pre ++ m ++ t)) = false := by
      have h := hno 0 (by simp)
      rwa [List.drop_zero, hcons] at h
    have hrec := ih m t hm hlen hws (fun i hi => by
      have h := hno (i + 1) (by simpa using Nat.succ_lt_succ hi)
      rwa [hcons, List.drop_succ_cons] at h)
    rw [hcons, stripTrailing, if_neg (by rw [h0]; simp), hrec]

theorem all_dropWhile (p q : Char → Bool) :
    ∀ (l : List Char), l.all q = true → (l.dropWhile p).all q = true := by
  intro l
  induction l with
  | nil => intro _; rfl
  | cons c cs ih =>
    intro h
    simp only [List.all_cons, Bool.and_eq_true] at h
    rw [List.dropWhile_cons]
    by_cases hp : p c = true
    · rw [if_pos hp]
      exact ih h.2
    · rw [if_neg hp]
      simp only [List.all_cons, Bool.and_eq_true]
      exact ⟨h.1, h.2⟩

theorem takeWhile_of_all (p : Char → Bool) :
    ∀ (l : List Char), l.all p = true → l.takeWhile p = l := by
  intro l
  induction l with
  | nil => intro _; rfl
  | cons c cs ih =>
    intro h
    simp only [List.all_cons, Bool.and_eq_true] at h
    rw [List.takeWhile_cons, if_pos h.1, ih h.2]

theorem dropWhile_dropWhile (p : Char → Bool) :
    ∀ (l : List Char), (l.dropWhile p).dropWhile p = l.dropWhile p := by
  intro l
  induction l with
  | nil => rfl
  | cons c cs ih =>
    rw [List.dropWhile_cons]
    by_cases hp : p c = true
    · rw [if_pos hp]
      exact ih
    · rw [if_neg hp, List.dropWhile_cons, if_neg hp]

theorem jsTrim_dropWhile (l : List Char) :
    jsTrim (l.dropWhile jsWhitespace) = jsTrim l := by
  rw [jsTrim, jsTrim, dropWhile_dropWhile]

/-! ## Claim C5 -/

/-- Claim C5, counterexample.  The text `"QUERY_USED: a\nQUERY_USED: b"` ends
in the trailing marker line `QUERY_USED: b` (its `<text>` is `b`), so the
claim predicts `actualQuery = "b"`; but `match` finds the *first* occurrence
of the marker, so the code returns `actualQuery = "a"`. -/
theorem parseSearch_trailing_cx :
    ("QUERY_USED: a\nQUERY_USED: b").data
        = ("QUERY_USED: a\n").data ++ ("QUERY_USED:").data ++ (" b").data
    ∧ matchesCI markerL (("QUERY_USED:").data) = true
    ∧ ((" b").data.all fun c => !lineTerm c) = true
    ∧ (parseSearch ("q").data (("QUERY_USED: a\nQUERY_USED: b").data)).2 = ("a").data
    ∧ jsTrim ((" b").data) = ("b").data
    ∧ ("a").data ≠ ("b").data := by
  refine ⟨by decide, by decide, by decide, by decide, by decide, by decide⟩

/-- Claim C5 (amended): `actualQuery` is taken from the *first*
case-insensitive occurrence of `QUERY_USED:` in the text.  If the text ends
in a trailing marker line `QUERY_USED: <text>` (matched case-insensitively)
and no earlier occurrence of the marker exists, then `actualQuery` is
`<text>` trimmed and `summary` is the preceding text, verbatim, trimmed; if
the marker occurs nowhere, `actualQuery` is the input query and `summary` is
the full text. -/
theorem parseSearch_spec :
    (∀ (q pre m t : List Char),
        matchesCI markerL m = true → m.length = markerL.length →
        (t.all fun c => !lineTerm c) = true →
        (∀ i, i < pre.length → matchesCI markerL ((pre ++ m ++ t).drop i) = false) →
        parseSearch q (pre ++ m ++ t) = (jsTrim pre, jsTrim t)) ∧
    (∀ (q txt : List Char),
        (∀ i, i < txt.length → matchesCI markerL (txt.drop i) = false) →
        parseSearch q txt = (txt, q)) := by
  constructor
  · intro q pre m t hm hlen ht hno
    have hfm := findMarker_eq_some pre m t hm hlen hno
    have hst := stripTrailing_eq_some pre m t hm hlen (wsThenNoLT_of_all t ht) hno
    rw [parseSearch, hfm]
    simp only [hst]
    rw [captureRest, takeWhile_of_all _ _ (all_dropWhile _ _ t ht), jsTrim_dropWhile]
  · intro q txt h
    rw [parseSearch, findMarker_eq_none txt h]

/-- Witness for `parseSearch_spec` at the example given in the spec: backend text
ending in `QUERY_USED: Paris history`. -/
theorem parseSearch_spec_witness :
    parseSearch ("Paris").data
        (("Paris is nice.\n").data ++ ("QUERY_USED:").data ++ (" Paris history").data)
      = (jsTrim ("Paris is nice.\n").data, jsTrim (" Paris history").data)
    ∧ jsTrim (" Paris history").data = ("Paris history").data
    ∧ jsTrim ("Paris is nice.\n").data = ("Paris is nice.").data := by
  refine ⟨parseSearch_spec.1 ("Paris").data ("Paris is nice.\n").data
      ("QUERY_USED:").data (" Paris history").data
      (by decide) (by decide) (by decide) (by decide), by decide, by decide⟩

/-! ## Claim C6 -/

/-- Claim C6: the sources of the resulting `SearchResponse` are exactly the
entries with a non-empty URI, deduplicated by URI with the first occurrence
kept, in the original relative order (`chunkToSources` is the push loop that
keeps the non-empty-URI entries in order; `dedupByUriFirst` is first-kept
deduplication); in particular chunks with URIs `a`, `b`, `a` yield sources
`[a, b]`. -/
theorem searchAndSummarize_sources_dedup :
    (∀ (q t : String) (cs : List Chunk),
        (searchAndSummarize q t cs).sources = dedupByUriFirst (chunkToSources cs)
        ∧ ((searchAndSummarize q t cs).sources.all fun r => !(r.uri == "")) = true) ∧
    ((searchAndSummarize "q" "text"
        [⟨some ⟨"t1", "a"⟩⟩, ⟨some ⟨"t2", "b"⟩⟩, ⟨some ⟨"t3", "a"⟩⟩]).sources.map
        fun r => r.uri) = ["a", "b"] := by
  constructor
  · intro q t cs
    constructor
    · exact uniqueByUri_eq_dedup (chunkToSources cs)
    · show ((uniqueByUri (chunkToSources cs)).all fun r => !(r.uri == "")) = true
      rw [uniqueByUri_eq_dedup]
      exact dedupSeen_all _ (chunkToSources cs) [] (chunkToSources_uri_ne cs)
  · decide

/-! ## Claim C7 -/

theorem foldl_pushHistory :
    ∀ (es : List HistoryItem) (h0 : List HistoryItem), h0.length ≤ 20 →
      List.foldl (fun h e => pushHistory e h) h0 es = (es.reverse ++ h0).take 20 := by
  intro es
  induction es with
  | nil =>
    intro h0 hl
    simp [List.take_of_length_le hl]
  | cons e es ih =>
    intro h0 hl
    rw [List.foldl_cons]
    have h1 : (pushHistory e h0).length ≤ 20 := by
      have h2 : (h0.take 19).length ≤ 19 := by
        simp
      simp only [pushHistory, List.length_cons]
      omega
    rw [ih _ h1, List.reverse_cons, List.append_assoc, List.singleton_append,
        List.take_append_eq_append_take, List.take_append_eq_append_take]
    congr 1
    have key : ∀ (k : Nat), k ≤ 20 → (pushHistory e h0).take k = (e :: h0).take k := by
      intro k hk
      cases k with
      | zero => rfl
      | succ n =>
        rw [pushHistory, List.take_succ_cons, List.take_succ_cons, List.take_take]
        have hmin : min n 19 = n := by omega
        rw [hmin]
    exact key _ (Nat.sub_le _ _)

/-- Claim C7: `SessionStore` never exceeds 20 entries and keeps them
most-recent-first: iterating the history insert over any sequence of entries
yields the most recent 20, newest first; in particular after 21 successful
flows exactly 20 entries remain, entry #1 has been evicted and entries
#2–#21 are present most-recent-first. -/
theorem history_capacity :
    (∀ (es : List HistoryItem) (h0 : List HistoryItem), h0.length ≤ 20 →
        List.foldl (fun h e => pushHistory e h) h0 es = (es.reverse ++ h0).take 20) ∧
    (List.foldl (fun h e => pushHistory e h) []
        ((List.range 21).map fun i => histItem (i + 1))
      = ((List.range 20).map fun i => histItem (21 - i)))
    ∧ (((List.range 20).map fun i => histItem (21 - i)).length = 20)
    ∧ (histItem 1 ∉ (List.range 20).map fun i => histItem (21 - i))
    ∧ (∀ j, 2 ≤ j → j ≤ 21 →
        histItem j ∈ (List.range 20).map fun i => histItem (21 - i)) := by
  refine ⟨foldl_pushHistory, by decide, by decide, by decide, ?_⟩
  decide

/-- Witness for `history_capacity` (its first part carries the
`h0.length ≤ 20` hypothesis). -/
theorem history_capacity_witness :
    List.foldl (fun h e => pushHistory e h) [] [histItem 1, histItem 2]
      = [histItem 2, histItem 1] := by
  have h := history_capacity.1 [histItem 1, histItem 2] [] (by decide)
  rw [h]
  decide

/-! ## Claim C10 -/

/-- Claim C10: selecting a history entry makes no remote call (`calls = []`)
and performs a pure restore: playback is stopped (source nulled, output
halted), the active `SearchResponse` and query are replaced by the stored
snapshot, the log is replaced by the single restore line, the status is
forced to `IDLE`, and the playback-finished flag is set to `true` even
though no playback occurred; the error and history are untouched.  (The
hypothesis is the playback invariant of the program: a playing source node is
always held in `currentSourceRef`.) -/
theorem historyClick_restores :
    ∀ (s : AppState) (item : HistoryItem),
      (s.playingSource = true → s.currentSource = true) →
      handleHistoryClick s item =
        ⟨{ query := item.query, status := AppStatus.IDLE, results := some item.results,
           error := s.error, logs := [restoreMsg item.query], playbackFinished := true,
           isLuckyLoading := s.isLuckyLoading, history := s.history,
           currentSource := false, playingSource := false,
           endedQueued := s.endedQueued || (s.currentSource && s.playingSource) },
         [{ query := item.query, status := AppStatus.IDLE, results := some item.results,
            error := s.error, logs := [restoreMsg item.query], playbackFinished := true,
            isLuckyLoading := s.isLuckyLoading, history := s.history,
            currentSource := false, playingSource := false,
            endedQueued := s.endedQueued || (s.currentSource && s.playingSource) }],
         []⟩ := by
  intro s item hinv
  cases s with
  | mk q st res err lg pf lucky hist cur play endq =>
    cases cur with
    | false =>
      cases play with
      | false =>
        by_cases hst : st = AppStatus.PLAYING <;>
          simp [handleHistoryClick, stopAudio, hst]
      | true =>
        have h := hinv rfl
        simp at h
    | true =>
      by_cases hst : st = AppStatus.PLAYING <;>
        simp [handleHistoryClick, stopAudio, hst]

/-- Witness for `historyClick_restores` at a concrete playing state. -/
theorem historyClick_restores_witness :
    (handleHistoryClick sPlaying (histItem 1)).calls = []
    ∧ (handleHistoryClick sPlaying (histItem 1)).final.status = AppStatus.IDLE
    ∧ (handleHistoryClick sPlaying (histItem 1)).final.logs = [restoreMsg "q"]
    ∧ (handleHistoryClick sPlaying (histItem 1)).final.playbackFinished = true := by
  rw [historyClick_restores sPlaying (histItem 1) (by decide)]
  exact ⟨rfl, rfl, rfl, rfl⟩

/-! ## Claim C4 -/

/-- Claim C4, counterexample.  `stopAudio` during Playing: by the Web Audio
contract the `ended` event is still dispatched after `stop()`, so the
registered completion handler runs, setting the playback-finished flag and
appending the "Playback finished." log line — the claimed "never causes the
natural-completion callback to fire" is false. -/
theorem stop_fires_onended_cx :
    sPlaying.status = AppStatus.PLAYING
    ∧ (stopAudio sPlaying).endedQueued = true
    ∧ (deliverEnded (stopAudio sPlaying)).playbackFinished = true
    ∧ (deliverEnded (stopAudio sPlaying)).logs = sPlaying.logs ++ [finishMsg] := by
  refine ⟨rfl, by decide, by decide, by decide⟩

/-- Claim C4 (amended): invoking stop during Playing halts output
immediately (the source stops playing and the handle is nulled, with no log
line yet) and transitions to Idle; the registered completion callback is
nevertheless delivered afterwards (Web Audio fires `ended` on `stop()`),
setting the playback-finished flag and appending "Playback finished."; a
subsequent stop call, with nothing playing, is a no-op — both before and
after that delivery. -/
theorem stop_behavior :
    ∀ (s : AppState), s.status = AppStatus.PLAYING → s.currentSource = true →
      s.playingSource = true →
      (stopAudio s).playingSource = false
      ∧ (stopAudio s).currentSource = false
      ∧ (stopAudio s).status = AppStatus.IDLE
      ∧ (stopAudio s).logs = s.logs
      ∧ stopAudio (stopAudio s) = stopAudio s
      ∧ (deliverEnded (stopAudio s)).playbackFinished = true
      ∧ (deliverEnded (stopAudio s)).logs = s.logs ++ [finishMsg]
      ∧ stopAudio (deliverEnded (stopAudio s)) = deliverEnded (stopAudio s) := by
  intro s h1 h2 h3
  cases s with
  | mk q st res err lg pf lucky hist cur play endq =>
    simp only at h1 h2 h3
    subst h1 h2 h3
    simp [stopAudio, deliverEnded, onendedHandler]

/-- Witness for `stop_behavior` at the concrete playing state. -/
theorem stop_behavior_witness :
    (stopAudio sPlaying).status = AppStatus.IDLE
    ∧ (deliverEnded (stopAudio sPlaying)).logs = sPlaying.logs ++ [finishMsg]
    ∧ stopAudio (deliverEnded (stopAudio sPlaying)) = deliverEnded (stopAudio sPlaying) := by
  obtain ⟨_, _, hs, _, _, _, hl, hn⟩ := stop_behavior sPlaying rfl rfl rfl
  exact ⟨hs, hl, hn⟩

/-! ## Claim C2 -/

/-- Claim C2, counterexample: the search succeeds and speech generation then
fails; the flow ends in Error, yet a history entry has been added by this
failed flow — history is not only written by fully-completed flows. -/
theorem history_on_failure_cx :
    (performSearchFlow sIdle "q" envSpeechFail).final.status = AppStatus.ERROR
    ∧ (performSearchFlow sIdle "q" envSpeechFail).final.history = [⟨"1", "q", rNew⟩]
    ∧ sIdle.history = [] := by
  refine ⟨by decide, by decide, rfl⟩

/-- Claim C2 (amended): a `HistoryEntry` is added exactly when
`searchAndSummarize` succeeds — at the Synthesizing phase, before speech
generation.  When the search call fails the history is unchanged; when it
succeeds the entry is inserted and remains even if a later phase (speech
generation or decoding) fails. -/
theorem history_added_iff_search_ok :
    ∀ (s : AppState) (q : String) (env : Env),
      (∀ m, env.searchRes = Except.error m →
          (performSearchFlow s q env).final.history = s.history) ∧
      (∀ r, env.searchRes = Except.ok r →
          (performSearchFlow s q env).final.history
            = pushHistory ⟨env.newId, q, r⟩ s.history) := by
  intro s q env
  obtain ⟨sr, pr, dr, tr, rr, nid⟩ := env
  constructor
  · intro m hm
    replace hm : sr = Except.error m := hm
    subst hm
    rfl
  · intro r hr
    replace hr : sr = Except.ok r := hr
    subst hr
    cases pr with
    | error m => rfl
    | ok a =>
      cases dr with
      | error m => rfl
      | ok u => rfl

/-- Witness for `history_added_iff_search_ok`: even with failing speech
generation the history gains the entry built from the successful search. -/
theorem history_added_iff_search_ok_witness :
    (performSearchFlow sIdle "q" envSpeechFail).final.history
      = pushHistory ⟨"1", "q", rNew⟩ sIdle.history :=
  (history_added_iff_search_ok sIdle "q" envSpeechFail).2 rNew rfl

/-! ## Claim C8 -/

/-- Claim C8: if `searchAndSummarize` succeeds and a later phase of the same
flow fails (speech generation, decoding — missing audio data being the
speech call rejecting with "Audio generation failed."), the active
`SearchResponse` stored at the Synthesizing phase remains in place, as does
the history insert; the failure handling modifies only the error field, the
status (→ Error) and the log, with no rollback of prior-phase mutations. -/
theorem failure_keeps_prior_mutations :
    ∀ (s : AppState) (q : String) (env : Env) (r : SearchResponse),
      env.searchRes = Except.ok r →
      (∀ m, env.speechRes = Except.error m →
          (performSearchFlow s q env).final =
            { s with results := some r
                     history := pushHistory ⟨env.newId, q, r⟩ s.history
                     playbackFinished := false
                     status := AppStatus.ERROR
                     error := some (errorField m)
                     logs := s.logs ++ [analyzeMsg q, consultMsg,
                        foundMsg r.sources.length, usedMsg r.actualQuery, synthMsg,
                        convertMsg, errorLogMsg m] }) ∧
      (∀ a m, env.speechRes = Except.ok a → env.decodeRes = Except.error m →
          (performSearchFlow s q env).final =
            { s with results := some r
                     history := pushHistory ⟨env.newId, q, r⟩ s.history
                     playbackFinished := false
                     status := AppStatus.ERROR
                     error := some (errorField m)
                     logs := s.logs ++ [analyzeMsg q, consultMsg,
                        foundMsg r.sources.length, usedMsg r.actualQuery, synthMsg,
                        convertMsg, playMsg, errorLogMsg m] }) := by
  intro s q env r hs
  obtain ⟨sr, pr, dr, tr, rr, nid⟩ := env
  replace hs : sr = Except.ok r := hs
  subst hs
  constructor
  · intro m hm
    replace hm : pr = Except.error m := hm
    subst hm
    simp [performSearchFlow, flowStart, flowCatch]
  · intro a m ha hm
    replace ha : pr = Except.ok a := ha
    replace hm : dr = Except.error m := hm
    subst ha hm
    simp [performSearchFlow, flowStart, flowCatch]

/-- Witness for `failure_keeps_prior_mutations` at the concrete
speech-failure environment. -/
theorem failure_keeps_prior_mutations_witness :
    (performSearchFlow sIdle "q" envSpeechFail).final =
      { sIdle with results := some rNew
                   history := pushHistory ⟨"1", "q", rNew⟩ sIdle.history
                   playbackFinished := false
                   status := AppStatus.ERROR
                   error := some (errorField "boom")
                   logs := sIdle.logs ++ [analyzeMsg "q", consultMsg,
                      foundMsg rNew.sources.length, usedMsg rNew.actualQuery, synthMsg,
                      convertMsg, errorLogMsg "boom"] } :=
  (failure_keeps_prior_mutations sIdle "q" envSpeechFail rNew rfl).1 "boom" rfl

/-! ## Claim C9 -/

/-- Claim C9: for every sequence of remote-call outcomes, the log over one
run of `performSearchFlow` is strictly append-only (the log of each observable
state extends the previous one — nothing removed or rewritten); and when the
flow succeeds end-to-end the appended entries appear in the fixed phase
order Analyzing, Searching (source count, actual query), Synthesizing,
GeneratingAudio, Playing, with no phase skipped — as does the status
sequence of the trace. -/
theorem log_append_only_and_ordered :
    ∀ (s : AppState) (q : String) (env : Env),
      List.Chain' LogExtends (s :: (performSearchFlow s q env).trace) ∧
      (∀ r a, env.searchRes = Except.ok r → env.speechRes = Except.ok a →
          env.decodeRes = Except.ok () →
          (performSearchFlow s q env).final.logs =
            s.logs ++ [analyzeMsg q, consultMsg, foundMsg r.sources.length,
                       usedMsg r.actualQuery, synthMsg, convertMsg, playMsg] ∧
          (performSearchFlow s q env).trace.map (fun x => x.status) =
            [s.status, AppStatus.ANALYZING, AppStatus.SEARCHING, AppStatus.SEARCHING,
             AppStatus.SYNTHESIZING, AppStatus.GENERATING_AUDIO, AppStatus.PLAYING,
             AppStatus.PLAYING]) := by
  intro s q env
  obtain ⟨sr, pr, dr, tr, rr, nid⟩ := env
  constructor
  · cases sr with
    | error m =>
      repeat
        first
        | exact List.chain'_singleton _
        | refine List.chain'_cons.mpr ⟨by first | exact ⟨_, rfl⟩ | exact ⟨[], by simp [flowStart]⟩, ?_⟩
    | ok r =>
      cases pr with
      | error m =>
        repeat
          first
          | exact List.chain'_singleton _
          | refine List.chain'_cons.mpr ⟨by first | exact ⟨_, rfl⟩ | exact ⟨[], by simp [flowStart]⟩, ?_⟩
      | ok a =>
        cases dr with
        | error m =>
          repeat
            first
            | exact List.chain'_singleton _
            | refine List.chain'_cons.mpr ⟨by first | exact ⟨_, rfl⟩ | exact ⟨[], by simp [flowStart]⟩, ?_⟩
        | ok u =>
          repeat
            first
            | exact List.chain'_singleton _
            | refine List.chain'_cons.mpr ⟨by first | exact ⟨_, rfl⟩ | exact ⟨[], by simp [flowStart]⟩, ?_⟩
  · intro r a hr ha hd
    replace hr : sr = Except.ok r := hr
    replace ha : pr = Except.ok a := ha
    replace hd : dr = Except.ok () := hd
    subst hr ha hd
    constructor
    · simp [performSearchFlow, flowStart]
    · simp [performSearchFlow, flowStart]

/-- Witness for `log_append_only_and_ordered` at the all-success
environment. -/
theorem log_append_only_and_ordered_witness :
    (performSearchFlow sIdle "q" envOk).final.logs =
      sIdle.logs ++ [analyzeMsg "q", consultMsg, foundMsg rNew.sources.length,
                     usedMsg rNew.actualQuery, synthMsg, convertMsg, playMsg] :=
  (((log_append_only_and_ordered sIdle "q" envOk).2 rNew "b64" rfl rfl rfl)).1

/-! ## Claim C1 -/

/-- Claim C1, counterexample: from Idle with an active result, pressing
Replay runs `performSearchFlow` in full — a `searchAndSummarize` network
call is made and the state passes through Analyzing and Searching rather
than jumping to GeneratingAudio; the fresh search result replaces the
already-active one. -/
theorem replay_cx :
    sIdle.status = AppStatus.IDLE
    ∧ sIdle.results = some rOld
    ∧ (replayClick sIdle envOk).calls.contains (RemoteCall.search "q") = true
    ∧ (replayClick sIdle envOk).trace.map (fun x => x.status) =
        [AppStatus.IDLE, AppStatus.ANALYZING, AppStatus.SEARCHING, AppStatus.SEARCHING,
         AppStatus.SYNTHESIZING, AppStatus.GENERATING_AUDIO, AppStatus.PLAYING,
         AppStatus.PLAYING]
    ∧ (replayClick sIdle envOk).final.results = some rNew
    ∧ rNew ≠ rOld := by
  refine ⟨rfl, rfl, by decide, by decide, by decide, by decide⟩

/-- Claim C1 (amended): Replay re-invokes the full search flow with the
current query: from Idle or Error with an active SearchResponse, when all
calls succeed, the state passes through Analyzing, Searching, Synthesizing,
GeneratingAudio, Playing — `searchAndSummarize` is re-called (followed by
speech generation) and the fresh result replaces the active one. -/
theorem replay_runs_full_flow :
    ∀ (s : AppState) (env : Env) (r0 r : SearchResponse) (a : String),
      (s.status = AppStatus.IDLE ∨ s.status = AppStatus.ERROR) →
      s.results = some r0 →
      env.searchRes = Except.ok r → env.speechRes = Except.ok a →
      env.decodeRes = Except.ok () →
      (replayClick s env).calls
          = [RemoteCall.search s.query, RemoteCall.speech r.summary]
      ∧ (replayClick s env).trace.map (fun x => x.status) =
          [s.status, AppStatus.ANALYZING, AppStatus.SEARCHING, AppStatus.SEARCHING,
           AppStatus.SYNTHESIZING, AppStatus.GENERATING_AUDIO, AppStatus.PLAYING,
           AppStatus.PLAYING]
      ∧ (replayClick s env).final.results = some r := by
  intro s env r0 r a _ _ hr ha hd
  obtain ⟨sr, pr, dr, tr, rr, nid⟩ := env
  replace hr : sr = Except.ok r := hr
  replace ha : pr = Except.ok a := ha
  replace hd : dr = Except.ok () := hd
  subst hr ha hd
  refine ⟨rfl, by simp [replayClick, performSearchFlow, flowStart], rfl⟩

/-- Witness for `replay_runs_full_flow` at the concrete idle state. -/
theorem replay_runs_full_flow_witness :
    (replayClick sIdle envOk).calls
        = [RemoteCall.search "q", RemoteCall.speech rNew.summary]
    ∧ (replayClick sIdle envOk).final.results = some rNew := by
  obtain ⟨h1, _, h3⟩ := replay_runs_full_flow sIdle envOk rOld rNew "b64"
      (Or.inl rfl) rfl rfl rfl rfl
  exact ⟨h1, h3⟩

/-! ## Claim C3 -/

/-- Claim C3, counterexample: Playing is neither Idle nor Error, yet
Workshop proceeds (state, log and active result all change), and FindMore
proceeds as well, since its only guard is the presence of an active
result. -/
theorem guard_cx :
    (sPlaying.status ≠ AppStatus.IDLE ∧ sPlaying.status ≠ AppStatus.ERROR)
    ∧ (handleWorkshop sPlaying envTweakFail).final.status = AppStatus.ERROR
    ∧ (handleWorkshop sPlaying envTweakFail).final.results ≠ sPlaying.results
    ∧ (handleWorkshop sPlaying envTweakFail).final.logs ≠ sPlaying.logs
    ∧ (handleFindMore sPlaying envRefineFail).final.status = AppStatus.ERROR
    ∧ (handleFindMore sPlaying envRefineFail).final.logs ≠ sPlaying.logs := by
  refine ⟨⟨by decide, by decide⟩, by decide, by decide, by decide, by decide, by decide⟩

/-- Claim C3 (amended): the silent no-op guards actually implemented are:
Search is rejected whenever the state is neither Idle nor Error (state, log,
active result unchanged, no remote call); Workshop is rejected only when the
trimmed query is empty, `isSearching` holds (state not Idle, Playing or
Error), or the lucky-loading flag is set — from Playing it proceeds;
FindMore is rejected only when there is no active result, regardless of
state. -/
theorem guards_as_implemented :
    ∀ (s : AppState) (env : Env),
      ((s.status ≠ AppStatus.IDLE ∧ s.status ≠ AppStatus.ERROR) →
          handleSearch s env = ⟨s, [], []⟩) ∧
      ((strTrim s.query = "" ∨ isSearching s = true ∨ s.isLuckyLoading = true) →
          handleWorkshop s env = ⟨s, [], []⟩) ∧
      (s.results = none → handleFindMore s env = ⟨s, [], []⟩) := by
  intro s env
  refine ⟨?_, ?_, ?_⟩
  · intro h
    simp only [handleSearch]
    rw [if_pos (Or.inr h)]
  · intro h
    simp only [handleWorkshop]
    rw [if_pos h]
  · intro h
    simp [handleFindMore, h]

/-- Witness for `guards_as_implemented`: a mid-search state rejects Search
and Workshop; a state without an active result rejects FindMore. -/
theorem guards_as_implemented_witness :
    handleSearch sSearching envOk = ⟨sSearching, [], []⟩
    ∧ handleWorkshop sSearching envOk = ⟨sSearching, [], []⟩
    ∧ handleFindMore sNoResults envOk = ⟨sNoResults, [], []⟩ :=
  ⟨(guards_as_implemented sSearching envOk).1 ⟨by decide, by decide⟩,
   (guards_as_implemented sSearching envOk).2.1 (by decide),
   (guards_as_implemented sNoResults envOk).2.2 (by decide)⟩

end GeminiSonic
